import Mathlib

/-!
Verification of the runtime object model, hash container, environment chain
and REPL control flow of the monkey-lang interpreter, shallowly embedded
from `object/object.go` and the REPL package.
-/

set_option autoImplicit false

namespace Monkey

/-! ### Object type tags (`ObjectType` string constants in object.go) -/

abbrev ObjectType := String

def INTEGER_OBJ : ObjectType := "INTEGER"
def BOOLEAN_OBJ : ObjectType := "BOOLEAN"
def NULL_OBJ : ObjectType := "NULL"
def RETURN_VALUE_OBJ : ObjectType := "RETURN_VALUE"
def ERROR_OBJ : ObjectType := "ERROR"
def STRING_OBJ : ObjectType := "STRING"
def ARRAY_OBJ : ObjectType := "ARRAY"

/-! ### HashKey -/

structure HashKey where
  type : ObjectType
  value : Nat
deriving DecidableEq, Repr

/-! ### FNV-1a 64-bit content hash (hash/fnv New64a, Write, Sum64) -/

def fnvOffsetBasis64 : Nat := 14695981039346656037

def fnvPrime64 : Nat := 1099511628211

def fnv1aStep (h : Nat) (b : Nat) : Nat := ((h ^^^ b) * fnvPrime64) % 2 ^ 64

def fnv1a64 (bytes : List Nat) : Nat := bytes.foldl fnv1aStep fnvOffsetBasis64

/-- UTF-8 encoding of one character, as `[]byte(s)` produces in Go. -/
def utf8EncodeCharNat (c : Char) : List Nat :=
  let v := c.toNat
  if v ≤ 0x7F then [v]
  else if v ≤ 0x7FF then [0xC0 ||| (v >>> 6), 0x80 ||| (v &&& 0x3F)]
  else if v ≤ 0xFFFF then
    [0xE0 ||| (v >>> 12), 0x80 ||| ((v >>> 6) &&& 0x3F), 0x80 ||| (v &&& 0x3F)]
  else
    [0xF0 ||| (v >>> 18), 0x80 ||| ((v >>> 12) &&& 0x3F),
      0x80 ||| ((v >>> 6) &&& 0x3F), 0x80 ||| (v &&& 0x3F)]

/-- The UTF-8 byte sequence of a string (`[]byte(s.Value)`). -/
def stringBytes (s : String) : List Nat := s.data.flatMap utf8EncodeCharNat

/-- `h.Write([]byte(s.Value)); h.Sum64()` for an `fnv.New64a()` hasher. -/
def stringFnv (s : String) : Nat := fnv1a64 (stringBytes s)

/-- uint64(v) for an int64 value v: the two's-complement cast, i.e. v mod 2^64. -/
def u64cast (v : Int) : Nat := (v % (2 ^ 64 : Int)).toNat

/-! ### Runtime objects

The `Object` interface variants needed by the claims. `integer`, `boolean`
and `str` carry the `Value` field of the corresponding Go struct; the cached
`hashKey` field is modelled separately (see `IntegerObj` etc. below) and the
hash computation is exposed here as the pure function `Obj.hashKey?`. -/

inductive Obj where
  | integer (value : Int)
  | boolean (value : Bool)
  | str (value : String)
  | null
  | returnValue (value : Obj)
  | error (message : String)
  | array (elements : List Obj)

/-- The `Type()` method of each object variant. -/
def Obj.type : Obj → ObjectType
  | .integer _ => INTEGER_OBJ
  | .boolean _ => BOOLEAN_OBJ
  | .str _ => STRING_OBJ
  | .null => NULL_OBJ
  | .returnValue _ => RETURN_VALUE_OBJ
  | .error _ => ERROR_OBJ
  | .array _ => ARRAY_OBJ

/-- The `key.(Hashable)` type assertion: succeeds exactly for Integer,
Boolean and String. -/
def Obj.isHashable : Obj → Bool
  | .integer _ => true
  | .boolean _ => true
  | .str _ => true
  | _ => false

/-- `HashKey()` as a pure function of the object's value: `some` exactly on
the Hashable variants, computing `{Type: ..., Value: digest}` as in
`Integer.HashKey`, `Boolean.HashKey` and `String.HashKey`. -/
def Obj.hashKey? : Obj → Option HashKey
  | .integer v => some ⟨INTEGER_OBJ, u64cast v⟩
  | .boolean v => some ⟨BOOLEAN_OBJ, if v then 1 else 0⟩
  | .str v => some ⟨STRING_OBJ, stringFnv v⟩
  | _ => none

/-- `compareObjects` from object.go: false on differing type tags, value
equality on String/Integer/Boolean, false on every other variant. -/
def compareObjects (a b : Obj) : Bool :=
  if a.type ≠ b.type then false
  else
    match a, b with
    | .str av, .str bv => av == bv
    | .integer av, .integer bv => av == bv
    | .boolean av, .boolean bv => av == bv
    | _, _ => false

/-! ### HashPair, HashChain, Hash -/

structure HashPair where
  key : Obj
  value : Obj

abbrev HashChain := List HashPair

/-- `HashChain.FindPair`: linear scan returning the first pair whose key is
object-equal to the query key. -/
def HashChain.findPair (chain : HashChain) (key : Obj) : Option HashPair :=
  match chain with
  | [] => none
  | pair :: rest =>
    if compareObjects pair.key key then some pair else HashChain.findPair rest key

/-- The indexed update loop of `Hash.Add`: replace the first pair whose key
is object-equal to `key` with `newPair` (`chain[i] = newPair`), or report
`none` when no pair matches. -/
def replaceFirst (chain : HashChain) (key : Obj) (newPair : HashPair) :
    Option HashChain :=
  match chain with
  | [] => none
  | pair :: rest =>
    if compareObjects pair.key key then some (newPair :: rest)
    else (replaceFirst rest key newPair).map (pair :: ·)

/-- `Hash`: the Go map from HashKey to chain is modelled as its lookup
function, with the map's zero-value behaviour (`h.Pairs[hashed]` is the nil
chain for an absent key) built in. -/
structure Hash where
  pairs : HashKey → HashChain

def NewHash : Hash := ⟨fun _ => []⟩

/-- `Hash.Add`: reject non-hashable keys with an error naming the key's
type; otherwise replace the value of an object-equal key in place in the
chain at the key's HashKey, or append the new pair to that chain. -/
def Hash.add (h : Hash) (key value : Obj) : Except String Hash :=
  match key.hashKey? with
  | none => .error ("unusable as hash key: " ++ key.type)
  | some hashed =>
    let chain := h.pairs hashed
    let newPair : HashPair := ⟨key, value⟩
    match replaceFirst chain key newPair with
    | some chain' => .ok ⟨fun k => if k = hashed then chain' else h.pairs k⟩
    | none => .ok ⟨fun k => if k = hashed then chain ++ [newPair] else h.pairs k⟩

/-- The observable state of the hash after one `Add` call: on error the Go
function returns before touching `h.Pairs`, so the receiver is unchanged. -/
def Hash.addResult (h : Hash) (key value : Obj) : Hash :=
  match h.add key value with
  | .ok h' => h'
  | .error _ => h

/-! ### Cached HashKey computation

The Go structs `Integer`, `Boolean`, `String` each carry a private
`hashKey *HashKey` cache; `HashKey()` returns the cache when present,
otherwise computes the digest, stores it and returns it. The mutation is
modelled by returning the updated object alongside the key. -/

structure IntegerObj where
  value : Int
  hashKey : Option HashKey
deriving DecidableEq, Repr

def NewInteger (value : Int) : IntegerObj := ⟨value, none⟩

/-- `Integer.HashKey()`. -/
def IntegerObj.hashKeyM (i : IntegerObj) : HashKey × IntegerObj :=
  match i.hashKey with
  | some h => (h, i)
  | none =>
    let hash : HashKey := ⟨INTEGER_OBJ, u64cast i.value⟩
    (hash, ⟨i.value, some hash⟩)

structure BooleanObj where
  value : Bool
  hashKey : Option HashKey
deriving DecidableEq, Repr

/-- `Boolean.HashKey()`. -/
def BooleanObj.hashKeyM (b : BooleanObj) : HashKey × BooleanObj :=
  match b.hashKey with
  | some h => (h, b)
  | none =>
    let value : Nat := if b.value then 1 else 0
    let hash : HashKey := ⟨BOOLEAN_OBJ, value⟩
    (hash, ⟨b.value, some hash⟩)

structure StringObj where
  value : String
  hashKey : Option HashKey
deriving DecidableEq, Repr

def NewString (value : String) : StringObj := ⟨value, none⟩

/-- `String.HashKey()`. -/
def StringObj.hashKeyM (s : StringObj) : HashKey × StringObj :=
  match s.hashKey with
  | some h => (h, s)
  | none =>
    let hash : HashKey := ⟨STRING_OBJ, stringFnv s.value⟩
    (hash, ⟨s.value, some hash⟩)

/-! ### Environment (chained scopes) -/

inductive Environment where
  | mk (store : List (String × Obj)) (outer : Option Environment)

def Environment.store : Environment → List (String × Obj)
  | .mk s _ => s

def Environment.outer : Environment → Option Environment
  | .mk _ o => o

def NewEnvironment : Environment := .mk [] none

def NewClosedEnvironment (outer : Environment) : Environment := .mk [] (some outer)

/-- `Environment.Get`: look in the local store, and on a miss recurse into
the outer environment when there is one. -/
def Environment.get : Environment → String → Option Obj
  | .mk store outer, name =>
    match store.lookup name with
    | some obj => some obj
    | none =>
      match outer with
      | some e => e.get name
      | none => none

/-- `Environment.Set` writes the local store only. -/
def Environment.set : Environment → String → Obj → Environment
  | .mk store outer, name, val => .mk ((name, val) :: store.eraseP (·.1 = name)) outer

/-- The list of scopes from the innermost outward. -/
def Environment.chain : Environment → List Environment
  | .mk store outer =>
    Environment.mk store outer ::
      (match outer with
       | some e => e.chain
       | none => [])

/-- Written from the spec sentence: the binding for a name comes from the
innermost environment in the chain that contains it. -/
def findBinding : List Environment → String → Option Obj
  | [], _ => none
  | env :: rest, name =>
    match env.store.lookup name with
    | some obj => some obj
    | none => findBinding rest name

/-! ### Boolean singletons

`TRUE` and `FALSE` are the only two `*Boolean` allocations handed out by
`GetBooleanObject`; the two references are modelled as the two constructors
of `BooleanRef`, distinctness of constructors standing for distinctness of
the allocations. -/

inductive BooleanRef where
  | TRUE
  | FALSE
deriving DecidableEq, Repr

/-- The `Value` field of the singleton each reference points at. -/
def BooleanRef.value : BooleanRef → Bool
  | .TRUE => true
  | .FALSE => false

/-- `GetBooleanObject` from object.go. -/
def GetBooleanObject (input : Bool) : BooleanRef :=
  if input then .TRUE else .FALSE

/-! ### REPL loop (repl.Start)

The lexer, parser and evaluator live outside the object package; the loop's
control flow does not depend on their internals, so they are abstracted as
parameters: `parse` maps an input line to a program together with the list
`p.Errors()`, and `eval` maps a program and the session environment to an
optional result (`Eval` may return nil, in which case nothing is printed)
together with the possibly mutated environment. -/

/-- What one loop iteration does with a line, observably: print the parser
errors, print the Inspect of the evaluated value, or print nothing. -/
inductive ReplEvent (Value : Type) where
  | parserErrors (msgs : List String)
  | printed (v : Value)
  | silent
deriving DecidableEq, Repr

/-- The body of the `for` loop in `repl.Start` for one scanned line: on
parser errors the errors are printed and the iteration ends (`continue`)
without evaluating; otherwise the program is evaluated in the session
environment. -/
def replStep {Program Value : Type}
    (parse : String → Program × List String)
    (eval : Program → Environment → Option Value × Environment)
    (env : Environment) (line : String) : ReplEvent Value × Environment :=
  let p := parse line
  if p.2 ≠ [] then (.parserErrors p.2, env)
  else
    match eval p.1 env with
    | (some v, env') => (.printed v, env')
    | (none, env') => (.silent, env')

/-- The read loop over the lines of a session, threading the one session
environment through every iteration. -/
def replSession {Program Value : Type}
    (parse : String → Program × List String)
    (eval : Program → Environment → Option Value × Environment)
    (env : Environment) : List String → List (ReplEvent Value)
  | [] => []
  | line :: rest =>
    let (ev, env') := replStep parse eval env line
    ev :: replSession parse eval env' rest

/-- The session environment after processing a list of lines. -/
def replEnvAfter {Program Value : Type}
    (parse : String → Program × List String)
    (eval : Program → Environment → Option Value × Environment)
    (env : Environment) : List String → Environment
  | [] => env
  | line :: rest => replEnvAfter parse eval (replStep parse eval env line).2 rest

/-- `repl.Start`: create the root environment once, before the loop, then
run the loop on the session's lines. -/
def replStart {Program Value : Type}
    (parse : String → Program × List String)
    (eval : Program → Environment → Option Value × Environment)
    (lines : List String) : List (ReplEvent Value) :=
  replSession parse eval NewEnvironment lines

/-! ### Lemmas about object equality and hash keys -/

theorem hashKey?_isSome (o : Obj) : o.hashKey?.isSome = o.isHashable := by
  cases o <;> rfl

theorem hashKey?_type {o : Obj} {k : HashKey} (h : o.hashKey? = some k) :
    k.type = o.type := by
  cases o <;> simp [Obj.hashKey?] at h <;> subst h <;> rfl

/-- `compareObjects` is true exactly on a pair of equal hashable objects. -/
theorem compareObjects_iff (a b : Obj) :
    compareObjects a b = true ↔ a = b ∧ a.isHashable = true := by
  cases a <;> cases b <;>
    simp [compareObjects, Obj.type, Obj.isHashable,
      INTEGER_OBJ, BOOLEAN_OBJ, STRING_OBJ, NULL_OBJ, RETURN_VALUE_OBJ,
      ERROR_OBJ, ARRAY_OBJ]

theorem compareObjects_symm (a b : Obj) : compareObjects a b = compareObjects b a := by
  by_cases hab : compareObjects a b = true
  · obtain ⟨rfl, _⟩ := (compareObjects_iff a b).1 hab
    rfl
  · by_cases hba : compareObjects b a = true
    · obtain ⟨rfl, hh⟩ := (compareObjects_iff b a).1 hba
      exact absurd ((compareObjects_iff b b).2 ⟨rfl, hh⟩) hab
    · rw [eq_false_of_ne_true hab, eq_false_of_ne_true hba]

theorem compareObjects_refl {o : Obj} (h : o.isHashable = true) :
    compareObjects o o = true :=
  (compareObjects_iff o o).2 ⟨rfl, h⟩

theorem compareObjects_false_of_type_ne {a b : Obj} (h : a.type ≠ b.type) :
    compareObjects a b = false := by
  simp [compareObjects, h]

/-! ### Lemmas about `replaceFirst` and `findPair` -/

theorem replaceFirst_eq_none_iff (chain : HashChain) (key : Obj) (np : HashPair) :
    replaceFirst chain key np = none ↔
      ∀ p ∈ chain, compareObjects p.key key = false := by
  induction chain with
  | nil => simp [replaceFirst]
  | cons q rest ih =>
    cases hq : compareObjects q.key key with
    | true => simp [replaceFirst, hq]
    | false => simp [replaceFirst, hq, ih]

theorem replaceFirst_eq_some {chain chain' : HashChain} {key : Obj} {np : HashPair}
    (h : replaceFirst chain key np = some chain') :
    ∃ l1 p l2, chain = l1 ++ p :: l2 ∧
      (∀ q ∈ l1, compareObjects q.key key = false) ∧
      compareObjects p.key key = true ∧
      chain' = l1 ++ np :: l2 := by
  induction chain generalizing chain' with
  | nil => simp [replaceFirst] at h
  | cons q rest ih =>
    cases hq : compareObjects q.key key with
    | true =>
      refine ⟨[], q, rest, by simp, by simp, hq, ?_⟩
      simp [replaceFirst, hq] at h
      simpa using h.symm
    | false =>
      simp only [replaceFirst, hq, Bool.false_eq_true, if_false] at h
      obtain ⟨rest', hrest', rfl⟩ := Option.map_eq_some'.1 h
      obtain ⟨l1, p, l2, hc, hl1, hp, hc'⟩ := ih hrest'
      refine ⟨q :: l1, p, l2, by simp [hc], ?_, hp, by simp [hc']⟩
      intro x hx
      rcases List.mem_cons.1 hx with rfl | hx
      · exact hq
      · exact hl1 x hx

theorem findPair_eq_none_iff (chain : HashChain) (key : Obj) :
    HashChain.findPair chain key = none ↔
      ∀ p ∈ chain, compareObjects p.key key = false := by
  induction chain with
  | nil => simp [HashChain.findPair]
  | cons q rest ih =>
    cases hq : compareObjects q.key key with
    | true => simp [HashChain.findPair, hq]
    | false => simp [HashChain.findPair, hq, ih]

theorem findPair_append_of_no_match {l1 : HashChain} {key : Obj}
    (h : ∀ q ∈ l1, compareObjects q.key key = false) (rest : HashChain) :
    HashChain.findPair (l1 ++ rest) key = HashChain.findPair rest key := by
  induction l1 with
  | nil => rfl
  | cons q l ih =>
    have hq := h q (List.mem_cons_self q l)
    simp only [List.cons_append, HashChain.findPair, hq, Bool.false_eq_true, if_false]
    exact ih fun x hx => h x (List.mem_cons_of_mem q hx)

theorem findPair_cons_match {q : HashPair} {key : Obj} (h : compareObjects q.key key = true)
    (rest : HashChain) : HashChain.findPair (q :: rest) key = some q := by
  simp [HashChain.findPair, h]

theorem findPair_append_left {chain : HashChain} {key : Obj} {p : HashPair}
    (h : HashChain.findPair chain key = some p) (rest : HashChain) :
    HashChain.findPair (chain ++ rest) key = some p := by
  induction chain with
  | nil => simp [HashChain.findPair] at h
  | cons q l ih =>
    cases hq : compareObjects q.key key with
    | true =>
      simp only [HashChain.findPair, hq, if_true] at h
      simp [HashChain.findPair, hq, h]
    | false =>
      simp only [HashChain.findPair, hq, Bool.false_eq_true, if_false] at h
      simp [HashChain.findPair, hq, ih h]

/-! ### Lemmas about `Hash.add` -/

theorem isHashable_of_hashKey? {o : Obj} {hk : HashKey} (h : o.hashKey? = some hk) :
    o.isHashable = true := by
  have := hashKey?_isSome o
  rw [h] at this
  exact this.symm

theorem hashKey?_eq_none_of_not_hashable {o : Obj} (h : o.isHashable = false) :
    o.hashKey? = none := by
  cases o <;> simp_all [Obj.isHashable, Obj.hashKey?]

theorem add_eq_error {h : Hash} {key value : Obj} (hk : key.hashKey? = none) :
    h.add key value = .error ("unusable as hash key: " ++ key.type) := by
  simp [Hash.add, hk]

theorem add_eq_ok_replace {h : Hash} {key value : Obj} {hk : HashKey} {chain' : HashChain}
    (hkey : key.hashKey? = some hk)
    (hrep : replaceFirst (h.pairs hk) key ⟨key, value⟩ = some chain') :
    h.add key value = .ok ⟨fun k => if k = hk then chain' else h.pairs k⟩ := by
  simp [Hash.add, hkey, hrep]

theorem add_eq_ok_append {h : Hash} {key value : Obj} {hk : HashKey}
    (hkey : key.hashKey? = some hk)
    (hrep : replaceFirst (h.pairs hk) key ⟨key, value⟩ = none) :
    h.add key value =
      .ok ⟨fun k => if k = hk then h.pairs hk ++ [⟨key, value⟩] else h.pairs k⟩ := by
  simp [Hash.add, hkey, hrep]

theorem add_isOk {h : Hash} {key value : Obj} {hk : HashKey}
    (hkey : key.hashKey? = some hk) : ∃ h', h.add key value = .ok h' := by
  cases hrep : replaceFirst (h.pairs hk) key ⟨key, value⟩ with
  | none => exact ⟨_, add_eq_ok_append hkey hrep⟩
  | some chain' => exact ⟨_, add_eq_ok_replace hkey hrep⟩

/-- After a successful `Add`, `FindPair` on the chain at the key's HashKey
returns exactly the pair just written. -/
theorem add_findPair {h h' : Hash} {k v : Obj} {hk : HashKey}
    (hkey : k.hashKey? = some hk) (hadd : h.add k v = .ok h') :
    HashChain.findPair (h'.pairs hk) k = some ⟨k, v⟩ := by
  have hself : compareObjects k k = true :=
    compareObjects_refl (isHashable_of_hashKey? hkey)
  cases hrep : replaceFirst (h.pairs hk) k ⟨k, v⟩ with
  | none =>
    rw [add_eq_ok_append hkey hrep] at hadd
    injection hadd with hadd
    subst hadd
    simp only [eq_self_iff_true, if_true]
    rw [findPair_append_of_no_match ((replaceFirst_eq_none_iff _ _ _).1 hrep)]
    exact findPair_cons_match hself []
  | some chain' =>
    rw [add_eq_ok_replace hkey hrep] at hadd
    injection hadd with hadd
    subst hadd
    simp only [eq_self_iff_true, if_true]
    obtain ⟨l1, p, l2, hc, hl1, hp, hc'⟩ := replaceFirst_eq_some hrep
    subst hc'
    rw [findPair_append_of_no_match hl1]
    exact findPair_cons_match hself l2

/-- Replacing the first pair matching a key `k2` that is not object-equal
to `k` does not disturb the pair `FindPair` returns for `k`. -/
theorem findPair_replaceFirst_other {chain chain' : HashChain} {k k2 v2 : Obj} {p : HashPair}
    (hfind : HashChain.findPair chain k = some p)
    (hrep : replaceFirst chain k2 ⟨k2, v2⟩ = some chain')
    (hne : compareObjects k2 k = false) :
    HashChain.findPair chain' k = some p := by
  induction chain generalizing chain' with
  | nil => simp [HashChain.findPair] at hfind
  | cons q rest ih =>
    cases hq2 : compareObjects q.key k2 with
    | true =>
      have hqk2 : q.key = k2 := ((compareObjects_iff q.key k2).1 hq2).1
      have hqk : compareObjects q.key k = false := by rw [hqk2]; exact hne
      simp only [replaceFirst, hq2, if_true] at hrep
      injection hrep with hrep
      subst hrep
      simp only [HashChain.findPair, hqk, Bool.false_eq_true, if_false] at hfind
      simpa [HashChain.findPair, hne] using hfind
    | false =>
      simp only [replaceFirst, hq2, Bool.false_eq_true, if_false] at hrep
      obtain ⟨rest', hrest', rfl⟩ := Option.map_eq_some'.1 hrep
      cases hqk : compareObjects q.key k with
      | true =>
        simp only [HashChain.findPair, hqk, if_true] at hfind ⊢
        exact hfind
      | false =>
        simp only [HashChain.findPair, hqk, Bool.false_eq_true, if_false] at hfind ⊢
        exact ih hfind hrest'

/-- A successful `Add` with a key not object-equal to `k` leaves the pair
`FindPair` returns for `k` unchanged. -/
theorem add_preserves_other_key {h h2 : Hash} {k2 v2 k : Obj} {hk : HashKey} {p : HashPair}
    (hfind : HashChain.findPair (h.pairs hk) k = some p)
    (hne : compareObjects k2 k = false)
    (hadd : h.add k2 v2 = .ok h2) :
    HashChain.findPair (h2.pairs hk) k = some p := by
  cases hkey2 : k2.hashKey? with
  | none => rw [add_eq_error hkey2] at hadd; exact absurd hadd (by simp)
  | some hk2 =>
    cases hrep : replaceFirst (h.pairs hk2) k2 ⟨k2, v2⟩ with
    | none =>
      rw [add_eq_ok_append hkey2 hrep] at hadd
      injection hadd with hadd
      subst hadd
      by_cases hkk : hk = hk2
      · subst hkk
        simp only [eq_self_iff_true, if_true]
        exact findPair_append_left hfind _
      · simpa [hkk] using hfind
    | some chain' =>
      rw [add_eq_ok_replace hkey2 hrep] at hadd
      injection hadd with hadd
      subst hadd
      by_cases hkk : hk = hk2
      · subst hkk
        simp only [eq_self_iff_true, if_true]
        exact findPair_replaceFirst_other hfind hrep hne
      · simpa [hkk] using hfind

theorem addResult_of_error {h : Hash} {k v : Obj} {msg : String}
    (hadd : h.add k v = .error msg) : h.addResult k v = h := by
  simp [Hash.addResult, hadd]

theorem addResult_of_ok {h h' : Hash} {k v : Obj}
    (hadd : h.add k v = .ok h') : h.addResult k v = h' := by
  simp [Hash.addResult, hadd]

/-- A sequence of `Add` calls, each leaving the hash unchanged on error,
as the REPL's hash-literal evaluation performs them. -/
def Hash.addAll (h : Hash) (adds : List (Obj × Obj)) : Hash :=
  adds.foldl (fun hh a => hh.addResult a.1 a.2) h

theorem addAll_preserves_key {k : Obj} {hk : HashKey} {p : HashPair} :
    ∀ (adds : List (Obj × Obj)) (h : Hash),
      HashChain.findPair (h.pairs hk) k = some p →
      (∀ a ∈ adds, compareObjects a.1 k = false) →
      HashChain.findPair ((h.addAll adds).pairs hk) k = some p := by
  intro adds
  induction adds with
  | nil => intro h hfind _; exact hfind
  | cons a rest ih =>
    intro h hfind hne
    have hstep : HashChain.findPair ((h.addResult a.1 a.2).pairs hk) k = some p := by
      cases hadd : h.add a.1 a.2 with
      | error msg => rw [addResult_of_error hadd]; exact hfind
      | ok h2 =>
        rw [addResult_of_ok hadd]
        exact add_preserves_other_key hfind (hne a (List.mem_cons_self a rest)) hadd
    exact ih (h.addResult a.1 a.2) hstep fun x hx => hne x (List.mem_cons_of_mem a hx)

/-! ### Claim theorems -/

/-- C1: `Hash.Add` with a hashable key succeeds; when the chain at the
key's HashKey already contains a pair whose key is object-equal to the new
key, the first such pair has its value replaced in place and the chain
keeps its length; otherwise the new pair is appended to the end of that
chain. -/
theorem hash_add_replace_in_place_or_append (h : Hash) (key value : Obj) (hk : HashKey)
    (hkey : key.hashKey? = some hk) :
    ∃ h', h.add key value = Except.ok h' ∧
      ((∃ p ∈ h.pairs hk, compareObjects p.key key = true) →
        (h'.pairs hk).length = (h.pairs hk).length ∧
        ∃ l1 p l2, h.pairs hk = l1 ++ p :: l2 ∧
          (∀ q ∈ l1, compareObjects q.key key = false) ∧
          compareObjects p.key key = true ∧
          h'.pairs hk = l1 ++ HashPair.mk key value :: l2) ∧
      ((∀ p ∈ h.pairs hk, compareObjects p.key key = false) →
        h'.pairs hk = h.pairs hk ++ [HashPair.mk key value]) := by
  cases hrep : replaceFirst (h.pairs hk) key ⟨key, value⟩ with
  | none =>
    refine ⟨_, add_eq_ok_append hkey hrep, ?_, ?_⟩
    · rintro ⟨p, hp, hcmp⟩
      have hfalse := (replaceFirst_eq_none_iff _ _ _).1 hrep p hp
      rw [hfalse] at hcmp
      exact absurd hcmp (by simp)
    · intro _
      simp
  | some chain' =>
    refine ⟨_, add_eq_ok_replace hkey hrep, ?_, ?_⟩
    · intro _
      obtain ⟨l1, p, l2, hc, hl1, hp, hc'⟩ := replaceFirst_eq_some hrep
      subst hc'
      refine ⟨by simp [hc], l1, p, l2, hc, hl1, hp, by simp⟩
    · intro hnone
      rw [(replaceFirst_eq_none_iff _ _ _).2 hnone] at hrep
      exact absurd hrep (by simp)

/-- Witness for C1 at a concrete input: adding integer key 5 to the empty
hash appends the pair to the (empty) chain at its HashKey. -/
theorem hash_add_replace_in_place_or_append_witness :
    (Obj.integer 5).hashKey? = some ⟨INTEGER_OBJ, 5⟩ ∧
    ∃ h', NewHash.add (Obj.integer 5) (Obj.str "x") = Except.ok h' ∧
      ((∃ p ∈ NewHash.pairs ⟨INTEGER_OBJ, 5⟩, compareObjects p.key (Obj.integer 5) = true) →
        (h'.pairs ⟨INTEGER_OBJ, 5⟩).length = (NewHash.pairs ⟨INTEGER_OBJ, 5⟩).length ∧
        ∃ l1 p l2, NewHash.pairs ⟨INTEGER_OBJ, 5⟩ = l1 ++ p :: l2 ∧
          (∀ q ∈ l1, compareObjects q.key (Obj.integer 5) = false) ∧
          compareObjects p.key (Obj.integer 5) = true ∧
          h'.pairs ⟨INTEGER_OBJ, 5⟩ = l1 ++ HashPair.mk (Obj.integer 5) (Obj.str "x") :: l2) ∧
      ((∀ p ∈ NewHash.pairs ⟨INTEGER_OBJ, 5⟩, compareObjects p.key (Obj.integer 5) = false) →
        h'.pairs ⟨INTEGER_OBJ, 5⟩ =
          NewHash.pairs ⟨INTEGER_OBJ, 5⟩ ++ [HashPair.mk (Obj.integer 5) (Obj.str "x")]) :=
  ⟨rfl, hash_add_replace_in_place_or_append NewHash (Obj.integer 5) (Obj.str "x")
    ⟨INTEGER_OBJ, 5⟩ rfl⟩

/-- C4: `Hash.Add` with a non-hashable key returns the error naming the
key's type as unusable, and the hash is left unchanged. -/
theorem hash_add_unusable_key (h : Hash) (k v : Obj) (hk : k.isHashable = false) :
    h.add k v = Except.error ("unusable as hash key: " ++ k.type) ∧
    h.addResult k v = h := by
  have herr := @add_eq_error h k v (hashKey?_eq_none_of_not_hashable hk)
  exact ⟨herr, addResult_of_error herr⟩

/-- Witness for C4 at a concrete input: Null is not hashable, so adding it
as a key errors and leaves the empty hash as it was. -/
theorem hash_add_unusable_key_witness :
    Obj.null.isHashable = false ∧
    NewHash.add Obj.null (Obj.integer 1) =
      Except.error ("unusable as hash key: " ++ Obj.null.type) ∧
    NewHash.addResult Obj.null (Obj.integer 1) = NewHash :=
  ⟨rfl, hash_add_unusable_key NewHash Obj.null (Obj.integer 1) rfl⟩

/-- C2: two distinct, non-object-equal hashable keys with equal 64-bit
digests are retained as separately retrievable pairs by two `Add` calls
(`FindPair` on the chain at each key's HashKey returns that key's own
pair); and because the HashKey carries the variant tag, objects of
different variants are never treated as equal keys, and their HashKeys
differ, even when the digests coincide. -/
theorem hash_collision_safety :
    (∀ (h : Hash) (k1 k2 v1 v2 : Obj) (hk1 hk2 : HashKey),
        k1.hashKey? = some hk1 → k2.hashKey? = some hk2 →
        compareObjects k1 k2 = false → hk1.value = hk2.value →
        ∃ h1 h2, h.add k1 v1 = Except.ok h1 ∧ h1.add k2 v2 = Except.ok h2 ∧
          HashChain.findPair (h2.pairs hk1) k1 = some ⟨k1, v1⟩ ∧
          HashChain.findPair (h2.pairs hk2) k2 = some ⟨k2, v2⟩) ∧
    (∀ a b : Obj, a.type ≠ b.type →
        compareObjects a b = false ∧
        ∀ ka kb, a.hashKey? = some ka → b.hashKey? = some kb → ka ≠ kb) := by
  constructor
  · intro h k1 k2 v1 v2 hk1 hk2 hkey1 hkey2 hne _
    obtain ⟨h1, hadd1⟩ := @add_isOk h k1 v1 hk1 hkey1
    obtain ⟨h2, hadd2⟩ := @add_isOk h1 k2 v2 hk2 hkey2
    have hfind1 := add_findPair hkey1 hadd1
    have hne21 : compareObjects k2 k1 = false := by
      rw [compareObjects_symm]; exact hne
    exact ⟨h1, h2, hadd1, hadd2,
      add_preserves_other_key hfind1 hne21 hadd2, add_findPair hkey2 hadd2⟩
  · intro a b htype
    refine ⟨compareObjects_false_of_type_ne htype, ?_⟩
    intro ka kb hka hkb hcontra
    apply htype
    rw [← hashKey?_type hka, ← hashKey?_type hkb, hcontra]

/-- Witness for C2 at a concrete input: integer 1 and boolean true have
equal digests (1) but different variant tags; both pairs are retrievable
after the two adds. -/
theorem hash_collision_safety_witness :
    ((Obj.integer 1).hashKey? = some ⟨INTEGER_OBJ, 1⟩ ∧
      (Obj.boolean true).hashKey? = some ⟨BOOLEAN_OBJ, 1⟩ ∧
      compareObjects (Obj.integer 1) (Obj.boolean true) = false ∧
      (HashKey.mk INTEGER_OBJ 1).value = (HashKey.mk BOOLEAN_OBJ 1).value ∧
      ∃ h1 h2, NewHash.add (Obj.integer 1) (Obj.str "a") = Except.ok h1 ∧
        h1.add (Obj.boolean true) (Obj.str "b") = Except.ok h2 ∧
        HashChain.findPair (h2.pairs ⟨INTEGER_OBJ, 1⟩) (Obj.integer 1) =
          some ⟨Obj.integer 1, Obj.str "a"⟩ ∧
        HashChain.findPair (h2.pairs ⟨BOOLEAN_OBJ, 1⟩) (Obj.boolean true) =
          some ⟨Obj.boolean true, Obj.str "b"⟩) ∧
    (Obj.integer 1).type ≠ (Obj.boolean true).type ∧
    compareObjects (Obj.integer 1) (Obj.boolean true) = false ∧
    (∀ ka kb, (Obj.integer 1).hashKey? = some ka →
      (Obj.boolean true).hashKey? = some kb → ka ≠ kb) := by
  refine ⟨⟨rfl, rfl, by decide, rfl, ?_⟩, by decide, by decide, ?_⟩
  · exact hash_collision_safety.1 NewHash (Obj.integer 1) (Obj.boolean true)
      (Obj.str "a") (Obj.str "b") ⟨INTEGER_OBJ, 1⟩ ⟨BOOLEAN_OBJ, 1⟩ rfl rfl (by decide) rfl
  · exact (hash_collision_safety.2 (Obj.integer 1) (Obj.boolean true) (by decide)).2

/-- C3: immediately after a successful `Add` of a hashable key, `FindPair`
on the chain at the key's HashKey finds a pair whose value is exactly the
value just assigned; any sequence of subsequent `Add` calls whose keys are
not object-equal to the key leaves the retrieved value unchanged. -/
theorem hash_add_findPair_roundtrip (h : Hash) (k v : Obj) (hk : HashKey)
    (hkey : k.hashKey? = some hk) :
    ∃ h', h.add k v = Except.ok h' ∧
      (∃ p, HashChain.findPair (h'.pairs hk) k = some p ∧ p.value = v) ∧
      ∀ adds : List (Obj × Obj), (∀ a ∈ adds, compareObjects a.1 k = false) →
        ∃ p, HashChain.findPair ((h'.addAll adds).pairs hk) k = some p ∧
          p.value = v := by
  obtain ⟨h', hadd⟩ := @add_isOk h k v hk hkey
  have hfind := add_findPair hkey hadd
  refine ⟨h', hadd, ⟨⟨k, v⟩, hfind, rfl⟩, ?_⟩
  intro adds hne
  exact ⟨⟨k, v⟩, addAll_preserves_key adds h' hfind hne, rfl⟩

/-- Witness for C3 at a concrete input: add integer 2 ↦ "two", then add
integer 3 ↦ null; the value retrieved for key 2 is still "two". -/
theorem hash_add_findPair_roundtrip_witness :
    (Obj.integer 2).hashKey? = some ⟨INTEGER_OBJ, 2⟩ ∧
    (∀ a ∈ [(Obj.integer 3, Obj.null)], compareObjects a.1 (Obj.integer 2) = false) ∧
    ∃ h', NewHash.add (Obj.integer 2) (Obj.str "two") = Except.ok h' ∧
      (∃ p, HashChain.findPair (h'.pairs ⟨INTEGER_OBJ, 2⟩) (Obj.integer 2) = some p ∧
          p.value = Obj.str "two") ∧
      ∀ adds : List (Obj × Obj),
        (∀ a ∈ adds, compareObjects a.1 (Obj.integer 2) = false) →
        ∃ p, HashChain.findPair ((h'.addAll adds).pairs ⟨INTEGER_OBJ, 2⟩)
            (Obj.integer 2) = some p ∧ p.value = Obj.str "two" := by
  refine ⟨rfl, ?_, ?_⟩
  · intro a ha
    simp only [List.mem_singleton] at ha
    subst ha
    decide
  · exact hash_add_findPair_roundtrip NewHash (Obj.integer 2) (Obj.str "two")
      ⟨INTEGER_OBJ, 2⟩ rfl

/-- C5: a fresh Integer's HashKey is `{INTEGER, uint64(value)}` (the
identity value for non-negative int64 values, the two's-complement cast
for negative ones), a fresh Boolean's is `{BOOLEAN, 1 or 0}`, a fresh
String's is `{STRING, FNV-1a-64 of the value}` (offset basis on the empty
string); the digest is computed once, cached on the object, and every
subsequent call returns the identical cached HashKey. -/
theorem hashKey_derivation_and_caching :
    (∀ v : Int, (NewInteger v).hashKeyM =
      (⟨INTEGER_OBJ, u64cast v⟩, ⟨v, some ⟨INTEGER_OBJ, u64cast v⟩⟩)) ∧
    (∀ v : Int, 0 ≤ v → v < 2 ^ 63 → (u64cast v : Int) = v) ∧
    (∀ v : Int, -(2 ^ 63) ≤ v → v < 0 → (u64cast v : Int) = 2 ^ 64 + v) ∧
    (∀ b : Bool, BooleanObj.hashKeyM ⟨b, none⟩ =
      (⟨BOOLEAN_OBJ, if b then 1 else 0⟩, ⟨b, some ⟨BOOLEAN_OBJ, if b then 1 else 0⟩⟩)) ∧
    (∀ s : String, (NewString s).hashKeyM =
      (⟨STRING_OBJ, stringFnv s⟩, ⟨s, some ⟨STRING_OBJ, stringFnv s⟩⟩)) ∧
    stringFnv "" = fnvOffsetBasis64 ∧
    (∀ i : IntegerObj, (i.hashKeyM.2).hashKey = some i.hashKeyM.1 ∧
      (i.hashKeyM.2).hashKeyM = i.hashKeyM) ∧
    (∀ b : BooleanObj, (b.hashKeyM.2).hashKey = some b.hashKeyM.1 ∧
      (b.hashKeyM.2).hashKeyM = b.hashKeyM) ∧
    (∀ s : StringObj, (s.hashKeyM.2).hashKey = some s.hashKeyM.1 ∧
      (s.hashKeyM.2).hashKeyM = s.hashKeyM) := by
  refine ⟨fun v => rfl, ?_, ?_, fun b => rfl, fun s => rfl, rfl, ?_, ?_, ?_⟩
  · intro v h1 h2
    simp only [u64cast]
    omega
  · intro v h1 h2
    simp only [u64cast]
    omega
  · intro i
    obtain ⟨v, c⟩ := i
    cases c <;> exact ⟨rfl, rfl⟩
  · intro b
    obtain ⟨v, c⟩ := b
    cases c <;> exact ⟨rfl, rfl⟩
  · intro s
    obtain ⟨v, c⟩ := s
    cases c <;> exact ⟨rfl, rfl⟩

/-- Witness for C5 at concrete inputs: the uint64 cast is the identity on
7 and the two's-complement value on -5. -/
theorem hashKey_derivation_and_caching_witness :
    (0 ≤ (7 : Int) ∧ (7 : Int) < 2 ^ 63 ∧ (u64cast 7 : Int) = 7) ∧
    (-(2 ^ 63) ≤ (-5 : Int) ∧ (-5 : Int) < 0 ∧ (u64cast (-5) : Int) = 2 ^ 64 + -5) :=
  ⟨⟨by decide, by decide, hashKey_derivation_and_caching.2.1 7 (by decide) (by decide)⟩,
    ⟨by decide, by decide, hashKey_derivation_and_caching.2.2.1 (-5) (by decide) (by decide)⟩⟩

/-- C10: object-equality is consistent with hashing — any two objects that
`compareObjects` deems equal are hashable and have the same HashKey, so
`Hash.Add`'s search of only the chain under the new key's own HashKey
finds every object-equal existing pair. -/
theorem compareObjects_implies_hashKey_eq (a b : Obj) (h : compareObjects a b = true) :
    ∃ k, a.hashKey? = some k ∧ b.hashKey? = some k := by
  obtain ⟨rfl, hh⟩ := (compareObjects_iff a b).1 h
  have hsome : a.hashKey?.isSome = true := by rw [hashKey?_isSome]; exact hh
  obtain ⟨k, hk⟩ := Option.isSome_iff_exists.1 hsome
  exact ⟨k, hk, hk⟩

/-- Witness for C10 at a concrete input: the string key "k" compares equal
to itself and carries one well-defined HashKey. -/
theorem compareObjects_implies_hashKey_eq_witness :
    compareObjects (Obj.str "k") (Obj.str "k") = true ∧
    ∃ k, (Obj.str "k").hashKey? = some k ∧ (Obj.str "k").hashKey? = some k :=
  ⟨by decide, compareObjects_implies_hashKey_eq (Obj.str "k") (Obj.str "k") (by decide)⟩

/-! ### Environment lookup -/

theorem env_get_eq_findBinding (e : Environment) (n : String) :
    e.get n = findBinding e.chain n := by
  cases e with
  | mk store outer =>
    cases outer with
    | none =>
      cases hl : store.lookup n with
      | some v => simp [Environment.get, Environment.chain, findBinding, Environment.store, hl]
      | none => simp [Environment.get, Environment.chain, findBinding, Environment.store, hl]
    | some o =>
      have ih := env_get_eq_findBinding o n
      cases hl : store.lookup n with
      | some v => simp [Environment.get, Environment.chain, findBinding, Environment.store, hl]
      | none =>
        simp [Environment.get, Environment.chain, findBinding, Environment.store, hl, ih]

theorem findBinding_eq_none_iff (l : List Environment) (n : String) :
    findBinding l n = none ↔ ∀ env ∈ l, env.store.lookup n = none := by
  induction l with
  | nil => simp [findBinding]
  | cons e rest ih =>
    cases hl : e.store.lookup n with
    | some v =>
      simp only [findBinding, hl]
      constructor
      · intro h
        exact absurd h (by simp)
      · intro h
        have hme := h e (List.mem_cons_self e rest)
        rw [hl] at hme
        exact absurd hme (by simp)
    | none =>
      simp only [findBinding, hl]
      constructor
      · intro h env henv
        rcases List.mem_cons.1 henv with rfl | henv
        · exact hl
        · exact ih.1 h env henv
      · intro h
        exact ih.2 fun env henv => h env (List.mem_cons_of_mem e henv)

/-- C6: `Environment.Get` returns the binding from the innermost
environment in the outer-chain that contains the name (inner scopes shadow
outer ones), and reports not-found exactly when no environment in the
chain binds the name. -/
theorem environment_get_innermost (e : Environment) (n : String) :
    e.get n = findBinding e.chain n ∧
    (e.get n = none ↔ ∀ env ∈ e.chain, env.store.lookup n = none) := by
  refine ⟨env_get_eq_findBinding e n, ?_⟩
  rw [env_get_eq_findBinding e n]
  exact findBinding_eq_none_iff e.chain n

/-- C7: `GetBooleanObject` hands out exactly the two singleton references:
`TRUE` on true and `FALSE` on false, the two are distinct references, they
are the only Boolean references in existence, and each carries the
matching truth value. -/
theorem boolean_singleton_identity :
    GetBooleanObject true = BooleanRef.TRUE ∧
    GetBooleanObject false = BooleanRef.FALSE ∧
    BooleanRef.TRUE ≠ BooleanRef.FALSE ∧
    (∀ r : BooleanRef, r = BooleanRef.TRUE ∨ r = BooleanRef.FALSE) ∧
    (∀ input : Bool, (GetBooleanObject input).value = input) := by
  refine ⟨rfl, rfl, by decide, ?_, ?_⟩
  · intro r
    cases r
    · exact Or.inl rfl
    · exact Or.inr rfl
  · intro input
    cases input <;> rfl

/-- C8: when the parser reports errors for a line, the REPL prints exactly
that ordered error list, leaves the environment untouched, never invokes
the evaluator (the step's outcome is independent of the evaluation
function), and the loop continues with the next input. -/
theorem repl_parser_errors_skip_eval {Program Value : Type}
    (parse : String → Program × List String)
    (eval1 eval2 : Program → Environment → Option Value × Environment)
    (env : Environment) (line : String) (rest : List String)
    (herr : (parse line).2 ≠ []) :
    replStep parse eval1 env line = (ReplEvent.parserErrors (parse line).2, env) ∧
    replStep parse eval1 env line = replStep parse eval2 env line ∧
    replSession parse eval1 env (line :: rest) =
      ReplEvent.parserErrors (parse line).2 :: replSession parse eval1 env rest := by
  have h1 : replStep parse eval1 env line = (ReplEvent.parserErrors (parse line).2, env) := by
    simp [replStep, herr]
  have h2 : replStep parse eval2 env line = (ReplEvent.parserErrors (parse line).2, env) := by
    simp [replStep, herr]
  refine ⟨h1, h1.trans h2.symm, ?_⟩
  simp [replSession, h1]

/-- Witness for C8 at a concrete input: a parse function reporting one
error makes the step print it, regardless of which evaluator is plugged
in, and the loop proceeds to the next line. -/
theorem repl_parser_errors_skip_eval_witness :
    ((fun _ : String => (((), ["oops"]) : Unit × List String)) "x").2 ≠ [] ∧
    (replStep (fun _ : String => (((), ["oops"]) : Unit × List String))
        (fun _ env => (some (), env)) NewEnvironment "x" =
      (ReplEvent.parserErrors ["oops"], NewEnvironment)) ∧
    (replStep (fun _ : String => (((), ["oops"]) : Unit × List String))
        (fun _ env => (some (), env)) NewEnvironment "x" =
      replStep (fun _ : String => (((), ["oops"]) : Unit × List String))
        (fun _ env => (none, env)) NewEnvironment "x") ∧
    replSession (fun _ : String => (((), ["oops"]) : Unit × List String))
        (fun _ env => (some (), env)) NewEnvironment ["x", "y"] =
      ReplEvent.parserErrors ["oops"] ::
        replSession (fun _ : String => (((), ["oops"]) : Unit × List String))
          (fun _ env => (some (), env)) NewEnvironment ["y"] := by
  refine ⟨by simp, ?_⟩
  exact repl_parser_errors_skip_eval _ _ _ _ "x" ["y"] (by simp)

/-! ### REPL session environment -/

theorem replSession_append {Program Value : Type}
    (parse : String → Program × List String)
    (eval : Program → Environment → Option Value × Environment) :
    ∀ (pre rest : List String) (env : Environment),
      replSession parse eval env (pre ++ rest) =
        replSession parse eval env pre ++
          replSession parse eval (replEnvAfter parse eval env pre) rest := by
  intro pre
  induction pre with
  | nil => intro rest env; rfl
  | cons line p ih =>
    intro rest env
    show (replStep parse eval env line).1 ::
        replSession parse eval (replStep parse eval env line).2 (p ++ rest) = _
    rw [ih]
    rfl

/-- C9: the REPL creates exactly one root environment per session — empty
and with no outer scope — before the read loop starts, and threads that
same environment through every evaluation, so the outputs for later inputs
are computed in the environment accumulated by all earlier inputs. -/
theorem repl_session_environment_persistence :
    NewEnvironment.store = [] ∧ NewEnvironment.outer = none ∧
    ∀ (Program Value : Type) (parse : String → Program × List String)
      (eval : Program → Environment → Option Value × Environment)
      (pre rest : List String),
      replStart parse eval (pre ++ rest) =
        replStart parse eval pre ++
          replSession parse eval (replEnvAfter parse eval NewEnvironment pre) rest := by
  refine ⟨rfl, rfl, ?_⟩
  intro Program Value parse eval pre rest
  exact replSession_append parse eval pre rest NewEnvironment

end Monkey
